import Mathlib

set_option maxHeartbeats 1000000

/-!
ABNN core verification: a shallow embedding of the spiking-network core under
`src/abnn/src/core`: the CPU reference traversal loop `Brain::stepCPU`,
persistence `Brain::save` / `Brain::load`, the teacher-rate state machine of
`BrainEngine::run_one_pass`, the reward computation, the `RateFilter` IIR
stage, teacher forcing, and — modelled from the spec where the GPU kernel is
absent from the source tree — the budgeted traversal kernel and the
renormalisation kernel.

Machine floats (`float` / `double`) are modelled by exact rationals, decimal
literals by their exact values. The C++ `std::exp` call is abstracted by a
function parameter wherever a theorem holds for every such function; it is
instantiated concretely only at arguments where `exp` is exact (`exp 0 = 1`).
-/

/-- Model of `std::clamp(x, lo, hi)`: `lo` if `x < lo`, else `hi` if `hi < x`, else `x`. -/
def clampQ (x lo hi : ℚ) : ℚ :=
  if x < lo then lo else if hi < x then hi else x

/-- One packed synapse as `Brain::stepCPU` sees it: `{src, dst, w}`
(`SynapsePacked` in `brain.h`; the `pad` field is never read by the loop). -/
structure SynQ where
  src : ℕ
  dst : ℕ
  w   : ℚ
  deriving DecidableEq

/-- The mutable state of the `Brain::stepCPU` loop (`brain.cpp`): host synapse
array, the two per-neuron timestamp vectors (modelled as total functions on
neuron indices) and the loop counter `now`. -/
structure CPUState where
  syn         : List SynQ
  lastFired   : ℕ → ℕ
  lastVisited : ℕ → ℕ
  now         : ℕ

/-- One pair of RNG draws consumed by a `stepCPU` iteration:
`edgeDist(rng)` (an index into the synapse array) and `uni(rng)` in `[0,1)`. -/
structure CPUDraw where
  edgeIdx : ℕ
  uni     : ℚ
  deriving DecidableEq

/-- One iteration of the loop body of `Brain::stepCPU` (brain.cpp:154-173),
with the constants inlined exactly as in the source: `tauPrePost = 20000`,
`tauVisit = 40000`, `alphaLTP = 0.01`, `alphaLTD = 0.005`, clamp bounds
`0.001` and `1.0`. `visitF dtVisit` abstracts
`std::exp(-float(dtVisit) / float(tauVisit))`. The draw of `edgeDist(rng)`
always lies in `[0, N_SYN - 1]`, so the embedding totalises indexing by
reducing the draw modulo the array length. -/
def stepCPUEvent (visitF : ℕ → ℚ) (s : CPUState) (d : CPUDraw) : CPUState :=
  if hidx : d.edgeIdx % s.syn.length < s.syn.length then
    let e := s.syn.get ⟨d.edgeIdx % s.syn.length, hidx⟩
    let dtSpike := s.now - s.lastFired e.src
    let dtVisit := s.now - s.lastVisited e.dst
    let visitFactor := visitF dtVisit
    if dtSpike < 20000 ∧ e.w * visitFactor > d.uni then
      let w1 := if dtSpike < 20000
                  then e.w + (1/100) * (1 - e.w)
                  else e.w - (1/200) * e.w
      { syn         := s.syn.set (d.edgeIdx % s.syn.length)
                          { e with w := clampQ w1 (1/1000) 1 },
        lastFired   := Function.update s.lastFired e.dst s.now,
        lastVisited := Function.update s.lastVisited e.dst s.now,
        now         := s.now + 1 }
    else
      { s with lastVisited := Function.update s.lastVisited e.dst s.now,
               now         := s.now + 1 }
  else { s with now := s.now + 1 }

/-- Model of `Brain::stepCPU(iterations)`: fold the loop body over the sequence of RNG
draws (one `CPUDraw` per iteration). -/
def runCPU (visitF : ℕ → ℚ) (s : CPUState) (draws : List CPUDraw) : CPUState :=
  draws.foldl (stepCPUEvent visitF) s

/-- The fire condition of the `stepCPU` loop body for the selected edge `e`:
`dtSpike < tauPrePost && e.w * visitFactor > uni(rng)`. -/
def fireCond (visitF : ℕ → ℚ) (s : CPUState) (d : CPUDraw) (e : SynQ) : Prop :=
  s.now - s.lastFired e.src < 20000 ∧
    e.w * visitF (s.now - s.lastVisited e.dst) > d.uni

instance (visitF : ℕ → ℚ) (s : CPUState) (d : CPUDraw) (e : SynQ) :
    Decidable (fireCond visitF s d e) := by
  unfold fireCond; infer_instance

/-- All weights of a synapse list lie in the clamp interval `[0.001, 1]`. -/
def weightsInRange (l : List SynQ) : Prop :=
  ∀ e ∈ l, 1/1000 ≤ e.w ∧ e.w ≤ 1

/-- Weight of the synapse at index `i` (`0` out of range). -/
def wAt (l : List SynQ) (i : ℕ) : ℚ := ((l[i]?).map SynQ.w).getD 0

/-- The plasticity rule exactly as the spec words it (spec §4.2 step 6, quoted
by claim C2): applied to the selected edge on every event, LTP when
`dtSpike < tauPre`, LTD otherwise, then clamped. This is the claim-side
definition, to be compared against `stepCPUEvent`. -/
def plasticitySpecStep (alphaLTP alphaLTD wMin wMax : ℚ) (tauPre dtSpike : ℕ)
    (w : ℚ) : ℚ :=
  clampQ (if dtSpike < tauPre then w + alphaLTP * (wMax - w)
          else w - alphaLTD * (w - wMin)) wMin wMax

/-- Modelled from the spec: scalar bindings of the traversal kernel
`monte_carlo_traversal` (spec §4.2); the kernel source (`.metal`) is not part
of the repository snapshot — only its host-side dispatcher `Brain::step` is. -/
structure KParams where
  tauPre       : ℕ
  tauVisit     : ℕ
  alphaLTP     : ℚ
  alphaLTD     : ℚ
  wMin         : ℚ
  wMax         : ℚ
  exploreScale : ℚ
  reward       : ℚ
  rBar         : ℚ
  passTeacher  : Bool
  visitF       : ℕ → ℚ
  kMaxSpikes   : ℕ

/-- Modelled from the spec: device state bound to the traversal kernel —
synapse array, timestamp arrays, global clock, the per-pass spike budget
(signed, as the `atomic_fetch_sub(spikeBudget, 1) <= 0` abort test of the spec
implies) and the per-pass firing counter of spec §4.2 step 8. -/
structure KState where
  syn         : List SynQ
  lastFired   : ℕ → ℕ
  lastVisited : ℕ → ℕ
  clock       : ℕ
  budget      : ℤ
  fires       : ℕ

/-- RNG outputs of one kernel thread: edge selection and the uniform draw. -/
structure KEvent where
  edgeIdx : ℕ
  uni     : ℚ
  deriving DecidableEq

/-- Modelled from the spec: one event of the traversal kernel (spec §4.2,
steps 1-8), sequentialised (the host observes some interleaving of the `E`
independent events; the budget and clock are atomic).
Step 2 increments the clock and obtains `now`; step 3 records the visit;
step 4 fires iff `dtSpike < tauPre` and `uni < pFire`, aborted when the
fetched budget is not positive; step 5 stores `now` into `lastFired[dst]`;
steps 6-7 apply STDP to this edge, LTP/LTD by `dtSpike`, scaled by
`(reward - rBar)` on a reward pass, clamped to `[wMin, wMax]`. -/
def kernelEvent (p : KParams) (s : KState) (ev : KEvent) : KState :=
  if hidx : ev.edgeIdx % s.syn.length < s.syn.length then
    let e := s.syn.get ⟨ev.edgeIdx % s.syn.length, hidx⟩
    let now := s.clock + 1
    let dtSpike := now - s.lastFired e.src
    let dtVisit := now - s.lastVisited e.dst
    let pFire := e.w * p.visitF dtVisit * p.exploreScale
    let wantsFire := dtSpike < p.tauPre ∧ ev.uni < pFire
    let fired := wantsFire ∧ 0 < s.budget
    let scale := if p.passTeacher then 1 else p.reward - p.rBar
    let w1 := if dtSpike < p.tauPre
                then e.w + scale * p.alphaLTP * (p.wMax - e.w)
                else e.w - scale * p.alphaLTD * (e.w - p.wMin)
    { syn         := s.syn.set (ev.edgeIdx % s.syn.length)
                        { e with w := clampQ w1 p.wMin p.wMax },
      lastFired   := if fired then Function.update s.lastFired e.dst now
                     else s.lastFired,
      lastVisited := Function.update s.lastVisited e.dst now,
      clock       := now,
      budget      := if wantsFire then s.budget - 1 else s.budget,
      fires       := if fired then s.fires + 1 else s.fires }
  else { s with clock := s.clock + 1 }

/-- Fold the kernel events of one dispatch in sequence. -/
def kernelRun (p : KParams) (s : KState) (events : List KEvent) : KState :=
  events.foldl (kernelEvent p) s

/-- Modelled from the spec: one pass (`encode_traversal`, spec §4.4) resets
`spikeBudget := kMaxSpikes` (and the per-pass firing counter) before the
traversal dispatch of `eventsPerPass` events. -/
def kernelPass (p : KParams) (s : KState) (events : List KEvent) : KState :=
  kernelRun p { s with budget := (p.kMaxSpikes : ℤ), fires := 0 } events

/-- Modelled from the spec: the renormalisation kernel (spec §4.3; in the
source only the declaration `Brain::renormalise_if_needed` in brain.h:90
remains): each timestamp strictly above `offset` is shifted down by `offset`,
all others (including the `0` = "never" sentinel) become `0`, and the clock
is shifted down by `offset`. -/
def renormState (offset : ℕ) (s : KState) : KState :=
  { s with
    lastFired   := fun i => if s.lastFired i > offset
                            then s.lastFired i - offset else 0,
    lastVisited := fun i => if s.lastVisited i > offset
                            then s.lastVisited i - offset else 0,
    clock       := s.clock - offset }

/-- The on-disk words of one `SynapsePacked` record (`brain.h`): the four
32-bit fields `{src, dst, w, pad}` as raw bit patterns. -/
structure SynW where
  src : ℕ
  dst : ℕ
  w   : ℕ
  pad : ℕ
  deriving DecidableEq

/-- The members of `Brain` that `Brain::save` / `Brain::load` (brain.cpp)
touch: `N_SYN_`, `N_NRN_` and the host synapse mirror `hostSynapses_`. -/
structure BrainP where
  nSyn         : ℕ
  nNrn         : ℕ
  hostSynapses : List SynW
  deriving DecidableEq

/-- The synapse array as the word stream `Brain::save` writes after the
header (`hostSynapses_.size() * sizeof(SynapsePacked)` bytes). -/
def encodeSyns (l : List SynW) : List ℕ :=
  l.foldr (fun s acc => s.src :: s.dst :: s.w :: s.pad :: acc) []

/-- Read `n` packed synapses from a word stream, as `is.read` does for
`Brain::load`; `none` models the stream running dry (failbit). Words beyond
the requested range are left in the stream (ignored). -/
def decodeSyns : ℕ → List ℕ → Option (List SynW)
  | 0, _ => some []
  | n+1, a :: b :: c :: d :: rest =>
      (decodeSyns n rest).map (fun l => SynW.mk a b c d :: l)
  | _+1, _ => none

/-- Model of `Brain::save(os)` (brain.cpp:179-187): write `N_SYN_`, `N_NRN_`, then the
raw bytes of `hostSynapses_`. -/
def BrainP.save (b : BrainP) : List ℕ :=
  b.nSyn :: b.nNrn :: encodeSyns b.hostSynapses

/-- Model of `Brain::load(is)` (brain.cpp:189-196): read `N_SYN_` and `N_NRN_` from the
stream into the shape fields of the brain, resize `hostSynapses_` to the new
`N_SYN_`, and read that many packed synapses. The pre-existing contents of
the brain are not consulted. -/
def BrainP.load (_old : BrainP) (stream : List ℕ) : Option BrainP :=
  match stream with
  | nSyn2 :: nNrn2 :: rest =>
      (decodeSyns nSyn2 rest).map
        (fun syns => { nSyn := nSyn2, nNrn := nNrn2, hostSynapses := syns })
  | _ => none

/-- The device debug counters `Brain::read_debug_outputs()` returns to
`BrainEngine::run_one_pass` (`DBG_OUT d`); their values come from the GPU and
are unconstrained inputs of the host state machine. -/
structure DbgOut where
  rewardHits : ℚ
  dwTeacher  : ℚ
  dwReward   : ℚ
  deriving DecidableEq

/-- The variables of `BrainEngine::run_one_pass` (brain-engine.cpp:133-317)
that the teacher-rate update reads or writes: `teacherRate`, the block
schedule cursor, the reward-pass counter and explore scale, and the
1000-pass diagnostic window counters. -/
structure EngState where
  teacherRate  : ℚ
  block        : ℕ
  inBlock      : ℕ
  rewardPasses : ℕ
  exploreScale : ℚ
  winCtr       : ℕ
  hitsTeach    : ℚ
  dWteachAcc   : ℚ
  hitsReward   : ℚ
  dWrewAcc     : ℚ
  deriving DecidableEq

/-- Initial values of the static locals of `run_one_pass`. -/
def engInit : EngState :=
  { teacherRate := 1, block := 0, inBlock := 0, rewardPasses := 0,
    exploreScale := 1, winCtr := 0, hitsTeach := 0, dWteachAcc := 0,
    hitsReward := 0, dWrewAcc := 0 }

/-- The `switch (block)` target table of `run_one_pass` (brain-engine.cpp:160-167). -/
def blockTarget (block inBlock : ℕ) : ℚ :=
  match block with
  | 0 => 1
  | 1 => 0
  | 2 => 1
  | 3 => 0
  | 4 => 1/2
  | _ => if inBlock % 5000 < 1000 then 1/2 else 0

/-- Block length: `(block <= 2) ? 1000 : (block == 3 ? 2000 : 2000)`. -/
def blockLen (block : ℕ) : ℕ :=
  if block ≤ 2 then 1000 else if block = 3 then 2000 else 2000

/-- One pass of `run_one_pass`, projected onto the teacher-rate state
machine (brain-engine.cpp:154-252): target from the block schedule,
`teacherRate := min(teacherRate, target)`, block-cursor advance, pass type
from `teacherRate > 0.05`, reward-pass count and explore-scale anneal,
diagnostic accumulation from the device counters `d`, and at each 1000-pass
window boundary the ratio test that decays `teacherRate` to
`max(teacherRate * 0.95, 0.05)`, resetting the accumulators only when both
modes were seen. -/
def engStep (d : DbgOut) (s : EngState) : EngState :=
  let target := blockTarget s.block s.inBlock
  let tr1 := min s.teacherRate target
  let blockAdv := s.inBlock + 1 = blockLen s.block
  let block2 := if blockAdv then s.block + 1 else s.block
  let inBlock2 := if blockAdv then 0 else s.inBlock + 1
  let passTeacher := tr1 > 1/20
  let rewardPasses2 := if passTeacher then s.rewardPasses else s.rewardPasses + 1
  let exploreScale2 := if rewardPasses2 > 20000 ∧ s.exploreScale > 3/10
                       then max (3/10) (s.exploreScale * (99997/100000))
                       else s.exploreScale
  let hitsTeach2 := if passTeacher then s.hitsTeach + d.rewardHits else s.hitsTeach
  let dWteachAcc2 := if passTeacher then s.dWteachAcc + d.dwTeacher * (1/1000000)
                     else s.dWteachAcc
  let hitsReward2 := if passTeacher then s.hitsReward else s.hitsReward + d.rewardHits
  let dWrewAcc2 := if passTeacher then s.dWrewAcc
                   else s.dWrewAcc + d.dwReward * (1/1000000)
  if s.winCtr + 1 = 1000 then
    if dWteachAcc2 > 0 ∧ dWrewAcc2 > 0 then
      let ratioQ := if dWteachAcc2 > 0 then dWrewAcc2 / dWteachAcc2 else 0
      { teacherRate := if ratioQ ≥ 3/20 then max (tr1 * (19/20)) (1/20) else tr1,
        block := block2, inBlock := inBlock2, rewardPasses := rewardPasses2,
        exploreScale := exploreScale2, winCtr := 0,
        hitsTeach := 0, dWteachAcc := 0, hitsReward := 0, dWrewAcc := 0 }
    else
      { teacherRate := tr1, block := block2, inBlock := inBlock2,
        rewardPasses := rewardPasses2, exploreScale := exploreScale2,
        winCtr := 0, hitsTeach := hitsTeach2, dWteachAcc := dWteachAcc2,
        hitsReward := hitsReward2, dWrewAcc := dWrewAcc2 }
  else
    { teacherRate := tr1, block := block2, inBlock := inBlock2,
      rewardPasses := rewardPasses2, exploreScale := exploreScale2,
      winCtr := s.winCtr + 1, hitsTeach := hitsTeach2,
      dWteachAcc := dWteachAcc2, hitsReward := hitsReward2,
      dWrewAcc := dWrewAcc2 }

/-- The engine state after `n` passes, driven by the device counters
`inputs 0, inputs 1, ...`. -/
def engRun (inputs : ℕ → DbgOut) : ℕ → EngState
  | 0 => engInit
  | n+1 => engStep (inputs n) (engRun inputs n)

/-- A concrete device-counter schedule: positive teacher-mode weight deltas
for the first 1000 passes, positive reward-mode weight deltas afterwards. -/
def c5Inputs (n : ℕ) : DbgOut :=
  if n < 1000 then { rewardHits := 0, dwTeacher := 1000000, dwReward := 0 }
  else { rewardHits := 0, dwTeacher := 0, dwReward := 1000000 }

/-- The reward scalar of `run_one_pass` before clipping
(brain-engine.cpp:283-292): `kGain * (lastLoss - loss) / (tRate + 0.02)`
with `kGain = 40` and `tRate = max(teacherRate, 0.05)`. -/
def rewardPreClip (lastLoss loss teacherRate : ℚ) : ℚ :=
  40 * (lastLoss - loss) / (max teacherRate (1/20) + 1/50)

/-- The reward scalar written to the device: the pre-clip value clamped to
`[-0.3, 0.3]`. -/
def rewardWritten (lastLoss loss teacherRate : ℚ) : ℚ :=
  clampQ (rewardPreClip lastLoss loss teacherRate) (-(3/10)) (3/10)

/-- Model of the `RateFilter::process` IIR coefficient (rate-filter.h:29):
`alpha = dt / (tau + dt)`. -/
def iirAlpha (tau dt : ℚ) : ℚ := dt / (tau + dt)

/-- One element of the `RateFilter::process` IIR update (rate-filter.h:33):
`r += alpha * (raw - r)`. -/
def iirStep (tau dt raw r : ℚ) : ℚ := r + iirAlpha tau dt * (raw - r)

/-- The IIR state after `n` calls of `process` with the same `raw` and `dt`. -/
def iirIter (tau dt raw r0 : ℚ) : ℕ → ℚ
  | 0 => r0
  | n+1 => iirStep tau dt raw (iirIter tau dt raw r0 n)

/-- Model of `uint32_t` wraparound subtraction `a - b` for `a, b < 2^32`. -/
def usub32 (a b : ℕ) : ℕ := (a + 2^32 - b) % 2^32

/-- The teacher-forcing write for one output neuron
(brain-engine.cpp:188-192): with `p = expected[o] * teacherRate`, write
`lastFired[nIn + o] := now` iff `uni(rng) < p` and `now - lf > 1`
(32-bit unsigned subtraction); otherwise leave the timestamp alone. -/
def teacherForceWrite (uniDraw expectedO teacherRate : ℚ) (now lfVal : ℕ) : ℕ :=
  if uniDraw < expectedO * teacherRate ∧ 1 < usub32 now lfVal then now else lfVal

/-- Concrete kernel parameters for witness instances (spec §6.5 defaults). -/
def demoKParams : KParams :=
  { tauPre := 20000, tauVisit := 40000, alphaLTP := 1/100, alphaLTD := 1/200,
    wMin := 1/1000, wMax := 1, exploreScale := 1, reward := 0, rBar := 0,
    passTeacher := true, visitF := fun _ => 1, kMaxSpikes := 256 }

/-- Concrete device state for witness instances. -/
def renormDemoState : KState :=
  { syn := [], lastFired := fun _ => 7, lastVisited := fun _ => 3,
    clock := 10, budget := 256, fires := 0 }

lemma clampQ_eq_self {x lo hi : ℚ} (h1 : lo ≤ x) (h2 : x ≤ hi) :
    clampQ x lo hi = x := by
  unfold clampQ
  rw [if_neg (not_lt.mpr h1), if_neg (not_lt.mpr h2)]

/-- The LTP update of `stepCPU` (`w += 0.01 * (1 - w)` then clamp) never
lowers a weight that is already in the clamp interval, and keeps it there. -/
lemma ltpUpdate_bounds {w : ℚ} (h1 : 1/1000 ≤ w) (h2 : w ≤ 1) :
    w ≤ clampQ (w + (1/100) * (1 - w)) (1/1000) 1 ∧
      1/1000 ≤ clampQ (w + (1/100) * (1 - w)) (1/1000) 1 ∧
      clampQ (w + (1/100) * (1 - w)) (1/1000) 1 ≤ 1 := by
  have hup : w ≤ w + (1/100) * (1 - w) := by linarith
  have hhi : w + (1/100) * (1 - w) ≤ 1 := by linarith
  have hlo : 1/1000 ≤ w + (1/100) * (1 - w) := le_trans h1 hup
  rw [clampQ_eq_self hlo hhi]
  exact ⟨hup, hlo, hhi⟩

lemma wAt_set_self {l : List SynQ} {i : ℕ} (h : i < l.length) (a : SynQ) :
    wAt (l.set i a) i = a.w := by
  unfold wAt
  rw [List.getElem?_set_eq_of_lt a h]
  rfl

lemma wAt_set_ne {l : List SynQ} {i j : ℕ} (h : i ≠ j) (a : SynQ) :
    wAt (l.set i a) j = wAt l j := by
  unfold wAt
  rw [List.getElem?_set_ne h]

lemma wAt_of_get {l : List SynQ} {i : ℕ} (h : i < l.length) :
    wAt l i = (l.get ⟨i, h⟩).w := by
  unfold wAt
  rw [List.getElem?_eq_getElem h]
  rfl

lemma stepCPUEvent_syn_length (visitF : ℕ → ℚ) (s : CPUState) (d : CPUDraw) :
    (stepCPUEvent visitF s d).syn.length = s.syn.length := by
  unfold stepCPUEvent
  split
  · dsimp only
    split <;> simp [List.length_set]
  · rfl

lemma stepCPUEvent_weights (visitF : ℕ → ℚ) (s : CPUState) (d : CPUDraw)
    (hw : weightsInRange s.syn) :
    weightsInRange (stepCPUEvent visitF s d).syn ∧
      ∀ i : ℕ, wAt s.syn i ≤ wAt (stepCPUEvent visitF s d).syn i := by
  unfold stepCPUEvent
  split
  · next hidx =>
    dsimp only
    have hew : 1/1000 ≤ (s.syn.get ⟨d.edgeIdx % s.syn.length, hidx⟩).w ∧
        (s.syn.get ⟨d.edgeIdx % s.syn.length, hidx⟩).w ≤ 1 :=
      hw _ (List.get_mem _ _ _)
    split
    · next hfire =>
      simp only [eq_true hfire.1, if_true]
      obtain ⟨hmono, hlo, hhi⟩ := ltpUpdate_bounds hew.1 hew.2
      constructor
      · intro x hx
        rcases List.mem_or_eq_of_mem_set hx with hx | hx
        · exact hw x hx
        · subst hx
          exact ⟨hlo, hhi⟩
      · intro i
        by_cases hi : i = d.edgeIdx % s.syn.length
        · subst hi
          rw [wAt_set_self hidx, wAt_of_get hidx]
          exact hmono
        · rw [wAt_set_ne (by omega)]
    · exact ⟨hw, fun i => le_refl _⟩
  · exact ⟨hw, fun i => le_refl _⟩

lemma runCPU_weights (visitF : ℕ → ℚ) (draws : List CPUDraw) (s : CPUState)
    (hw : weightsInRange s.syn) :
    weightsInRange (runCPU visitF s draws).syn ∧
      ∀ i : ℕ, wAt s.syn i ≤ wAt (runCPU visitF s draws).syn i := by
  induction draws generalizing s with
  | nil => exact ⟨hw, fun i => le_refl _⟩
  | cons d rest ih =>
    obtain ⟨hw1, hmono1⟩ := stepCPUEvent_weights visitF s d hw
    obtain ⟨hw2, hmono2⟩ := ih (stepCPUEvent visitF s d) hw1
    exact ⟨hw2, fun i => le_trans (hmono1 i) (hmono2 i)⟩

/-- C10: In the CPU reference traversal loop `Brain::stepCPU`, for every
initial synapse array whose weights all lie in `[0.001, 1.0]` and every
iteration count (every draw sequence), no synapse weight ever decreases:
after the run every weight is at least its initial value. The update runs
only under the fire condition, which already requires
`dtSpike < tauPrePost`, so the depression branch is unreachable. -/
theorem stepCPU_weights_never_decrease (visitF : ℕ → ℚ)
    (draws : List CPUDraw) (s : CPUState) (hw : weightsInRange s.syn) :
    ∀ i : ℕ, wAt s.syn i ≤ wAt (runCPU visitF s draws).syn i :=
  (runCPU_weights visitF draws s hw).2

/-- Witness for `stepCPU_weights_never_decrease` at a one-edge graph and a
two-iteration run. -/
theorem stepCPU_weights_never_decrease_witness :
    weightsInRange [SynQ.mk 0 1 (1/2)] ∧
      ∀ i : ℕ, wAt [SynQ.mk 0 1 (1/2)] i ≤
        wAt (runCPU (fun _ => 1)
              (CPUState.mk [SynQ.mk 0 1 (1/2)] (fun _ => 0) (fun _ => 0) 0)
              [CPUDraw.mk 0 (1/4), CPUDraw.mk 0 (9/10)]).syn i := by
  have hw : weightsInRange [SynQ.mk 0 1 (1/2)] := by
    intro e he
    simp only [List.mem_singleton] at he
    subst he
    norm_num
  exact ⟨hw, stepCPU_weights_never_decrease (fun _ => 1) _ _ hw⟩

/-- C2 (amended): in `Brain::stepCPU`, plasticity is applied to the selected
edge only on events that fire (`dtSpike < tauPrePost` and
`w * visitFactor > uni`); a firing event sets the weight to
`clamp(w + alphaLTP * (1 - w), wMin, wMax)` (the depression arm is dead), and
a non-firing event leaves the synapse array unchanged. -/
theorem stepCPU_plasticity_only_on_fire (visitF : ℕ → ℚ) (s : CPUState)
    (d : CPUDraw) (e : SynQ)
    (he : (s.syn[d.edgeIdx % s.syn.length]?) = some e) :
    (fireCond visitF s d e →
      (stepCPUEvent visitF s d).syn =
        s.syn.set (d.edgeIdx % s.syn.length)
          { e with w := clampQ (e.w + (1/100) * (1 - e.w)) (1/1000) 1 }) ∧
    (¬ fireCond visitF s d e → (stepCPUEvent visitF s d).syn = s.syn) := by
  obtain ⟨hidx, hget⟩ := List.getElem?_eq_some.mp he
  have hgete : s.syn.get ⟨d.edgeIdx % s.syn.length, hidx⟩ = e := hget
  unfold stepCPUEvent
  rw [dif_pos hidx]
  dsimp only
  rw [hgete]
  constructor
  · intro hf
    have hf2 : s.now - s.lastFired e.src < 20000 ∧
        e.w * visitF (s.now - s.lastVisited e.dst) > d.uni := hf
    rw [if_pos hf2, if_pos hf2.1]
  · intro hnf
    have hnf2 : ¬ (s.now - s.lastFired e.src < 20000 ∧
        e.w * visitF (s.now - s.lastVisited e.dst) > d.uni) := hnf
    rw [if_neg hnf2]

/-- Witness for `stepCPU_plasticity_only_on_fire` on a one-edge graph. -/
theorem stepCPU_plasticity_only_on_fire_witness :
    (([SynQ.mk 0 1 (1/2)] : List SynQ)[(0 : ℕ) % 1]? = some (SynQ.mk 0 1 (1/2))) ∧
    ((fireCond (fun _ => 1)
        (CPUState.mk [SynQ.mk 0 1 (1/2)] (fun _ => 0) (fun _ => 0) 0)
        (CPUDraw.mk 0 (1/4)) (SynQ.mk 0 1 (1/2)) →
      (stepCPUEvent (fun _ => 1)
        (CPUState.mk [SynQ.mk 0 1 (1/2)] (fun _ => 0) (fun _ => 0) 0)
        (CPUDraw.mk 0 (1/4))).syn =
        ([SynQ.mk 0 1 (1/2)] : List SynQ).set (0 % 1)
          { SynQ.mk 0 1 (1/2) with
            w := clampQ ((1/2 : ℚ) + (1/100) * (1 - (1/2 : ℚ))) (1/1000) 1 }) ∧
    (¬ fireCond (fun _ => 1)
        (CPUState.mk [SynQ.mk 0 1 (1/2)] (fun _ => 0) (fun _ => 0) 0)
        (CPUDraw.mk 0 (1/4)) (SynQ.mk 0 1 (1/2)) →
      (stepCPUEvent (fun _ => 1)
        (CPUState.mk [SynQ.mk 0 1 (1/2)] (fun _ => 0) (fun _ => 0) 0)
        (CPUDraw.mk 0 (1/4))).syn = [SynQ.mk 0 1 (1/2)])) :=
  ⟨rfl, stepCPU_plasticity_only_on_fire (fun _ => 1) _ _ _ rfl⟩

/-- C2 counterexample: the claim says plasticity is applied on every event,
fired or not. At a one-edge graph with `w = 1/2`, `uni = 9/10` and
`dtSpike = 0`, the event does not fire and `stepCPU` leaves the weight at
`1/2`, whereas the claimed rule (`dtSpike < tauPre`, so
`w += alphaLTP * (wMax - w)`) would produce `101/200`. The abstract `exp` is
instantiated at `fun _ => 1`, which agrees with `std::exp` at the only
evaluated argument (`exp(-0/tauVisit) = 1`). -/
theorem stepCPU_plasticity_not_always_applied :
    (stepCPUEvent (fun _ => 1)
        (CPUState.mk [SynQ.mk 0 1 (1/2)] (fun _ => 0) (fun _ => 0) 0)
        (CPUDraw.mk 0 (9/10))).syn = [SynQ.mk 0 1 (1/2)] ∧
    plasticitySpecStep (1/100) (1/200) (1/1000) 1 20000 0 (1/2) = 101/200 ∧
    ((1/2 : ℚ) ≠ 101/200) := by
  refine ⟨?_, ?_, by norm_num⟩
  · norm_num [stepCPUEvent]
  · norm_num [plasticitySpecStep, clampQ]

/-- C7: whenever the sliding-window loss strictly decreased
(`loss < lastLoss`), the reward scalar written for the next pass is strictly
positive before clipping: the numerator `40 * (lastLoss - loss)` is positive
and the denominator `max(teacherRate, 0.05) + 0.02` is at least `0.07`. -/
theorem reward_positive_on_loss_decrease (lastLoss loss teacherRate : ℚ)
    (h : loss < lastLoss) : 0 < rewardPreClip lastLoss loss teacherRate := by
  unfold rewardPreClip
  apply div_pos (by linarith)
  have hmax : (1/20 : ℚ) ≤ max teacherRate (1/20) := le_max_right _ _
  linarith

/-- Witness for `reward_positive_on_loss_decrease`. -/
theorem reward_positive_on_loss_decrease_witness :
    ((1/8 : ℚ) < 1/4) ∧ 0 < rewardPreClip (1/4) (1/8) (1/2) :=
  ⟨by norm_num, reward_positive_on_loss_decrease (1/4) (1/8) (1/2) (by norm_num)⟩

/-- C9: the teacher-forcing write for an output neuron happens only when the
32-bit difference `now - lastFired` exceeds 1; in particular a timestamp
already equal to the current clock is never re-written (its unsigned
difference is 0). -/
theorem teacherForce_no_rewrite_same_tick (uniDraw expectedO teacherRate : ℚ)
    (now lfVal : ℕ) (hnow : now < 2^32) (hlf : lfVal < 2^32) :
    (lfVal = now →
      teacherForceWrite uniDraw expectedO teacherRate now lfVal = lfVal) ∧
    (teacherForceWrite uniDraw expectedO teacherRate now lfVal ≠ lfVal →
      1 < usub32 now lfVal ∧
        teacherForceWrite uniDraw expectedO teacherRate now lfVal = now) := by
  constructor
  · intro hEq
    rw [hEq]
    have h0 : usub32 now now = 0 := by
      unfold usub32
      have h2 : now + 2^32 - now = 2^32 := by omega
      rw [h2, Nat.mod_self]
    unfold teacherForceWrite
    rw [if_neg]
    intro hc
    rw [h0] at hc
    exact absurd hc.2 (by norm_num)
  · intro hne
    unfold teacherForceWrite at hne ⊢
    by_cases hc : uniDraw < expectedO * teacherRate ∧ 1 < usub32 now lfVal
    · rw [if_pos hc]
      exact ⟨hc.2, rfl⟩
    · rw [if_neg hc] at hne
      exact absurd rfl hne

/-- Witness for `teacherForce_no_rewrite_same_tick`. -/
theorem teacherForce_no_rewrite_same_tick_witness :
    ((7 : ℕ) < 2^32) ∧ ((7 : ℕ) < 2^32) ∧
    ((7 = 7 → teacherForceWrite (1/4) 1 1 7 7 = 7) ∧
      (teacherForceWrite (1/4) 1 1 7 7 ≠ 7 →
        1 < usub32 7 7 ∧ teacherForceWrite (1/4) 1 1 7 7 = 7)) :=
  ⟨by norm_num, by norm_num,
    teacherForce_no_rewrite_same_tick (1/4) 1 1 7 7 (by norm_num) (by norm_num)⟩

lemma kernelEvent_clock (p : KParams) (s : KState) (ev : KEvent) :
    (kernelEvent p s ev).clock = s.clock + 1 := by
  unfold kernelEvent
  split <;> rfl

lemma kernelRun_clock_mono (p : KParams) (events : List KEvent) :
    ∀ s : KState, s.clock ≤ (kernelRun p s events).clock := by
  induction events with
  | nil => intro s; exact le_refl _
  | cons ev rest ih =>
    intro s
    have h1 : s.clock ≤ (kernelEvent p s ev).clock := by
      rw [kernelEvent_clock]; omega
    exact le_trans h1 (ih (kernelEvent p s ev))

/-- Each kernel event either leaves budget and firing count alone, or
consumes budget without firing (aborted fire), or — only when the fetched
budget was positive — fires once and consumes budget. -/
lemma kernelEvent_budget_fires (p : KParams) (s : KState) (ev : KEvent) :
    ((kernelEvent p s ev).fires = s.fires ∧
      (kernelEvent p s ev).budget = s.budget) ∨
    ((kernelEvent p s ev).fires = s.fires ∧
      (kernelEvent p s ev).budget = s.budget - 1) ∨
    (0 < s.budget ∧ (kernelEvent p s ev).fires = s.fires + 1 ∧
      (kernelEvent p s ev).budget = s.budget - 1) := by
  unfold kernelEvent
  split
  · dsimp only
    split
    · next hfired =>
      split
      · exact Or.inr (Or.inr ⟨hfired.2, rfl, rfl⟩)
      · next hA => exact absurd hfired.1 hA
    · next hnf =>
      split
      · exact Or.inr (Or.inl ⟨rfl, rfl⟩)
      · exact Or.inl ⟨rfl, rfl⟩
  · exact Or.inl ⟨rfl, rfl⟩

lemma kernelRun_fires_le (p : KParams) (events : List KEvent) :
    ∀ s : KState, s.budget ≤ (p.kMaxSpikes : ℤ) - s.fires →
      s.fires ≤ p.kMaxSpikes →
      (kernelRun p s events).fires ≤ p.kMaxSpikes := by
  induction events with
  | nil => intro s _ h2; exact h2
  | cons ev rest ih =>
    intro s h1 h2
    rcases kernelEvent_budget_fires p s ev with ⟨hf, hb⟩ | ⟨hf, hb⟩ |
      ⟨hpos, hf, hb⟩
    · exact ih _ (by rw [hf, hb]; exact h1) (by rw [hf]; exact h2)
    · exact ih _ (by rw [hf, hb]; omega) (by rw [hf]; exact h2)
    · refine ih _ ?_ ?_
      · rw [hf, hb]; push_cast; omega
      · rw [hf]
        have : (s.fires : ℤ) < (p.kMaxSpikes : ℤ) := by omega
        omega

/-- C1 (modelled from the spec: the GPU kernel `monte_carlo_traversal`, which
holds the spike budget, is not part of the repository snapshot —
`Brain::step` only dispatches it): over any single pass, starting from any
device state and for any event sequence, the number of firings recorded is
at most `kMaxSpikes`; the budget reset at pass start and the atomic
fetch-and-subtract abort make the budget a strict upper bound. -/
theorem kernelPass_fires_within_budget (p : KParams) (s : KState)
    (events : List KEvent) : (kernelPass p s events).fires ≤ p.kMaxSpikes := by
  unfold kernelPass
  apply kernelRun_fires_le
  · simp
  · exact Nat.zero_le _

/-- C6: renormalisation is a pure subtraction of a common offset: for every
neuron with `lastFired[i] > offset` it preserves the elapsed time
`clock - lastFired[i]`; it maps the `lastFired[i] = 0` "never" sentinel to
`0`; and between renorms the clock is non-decreasing (every traversal event
increments it). -/
theorem renorm_pure_subtraction (s : KState) (offset i : ℕ) (p : KParams)
    (events : List KEvent) (hoff : offset ≤ s.clock) :
    (offset < s.lastFired i →
      (renormState offset s).clock - (renormState offset s).lastFired i
        = s.clock - s.lastFired i) ∧
    (s.lastFired i = 0 → (renormState offset s).lastFired i = 0) ∧
    s.clock ≤ (kernelRun p s events).clock := by
  refine ⟨?_, ?_, kernelRun_clock_mono p events s⟩
  · intro hgt
    show (s.clock - offset) -
        (if offset < s.lastFired i then s.lastFired i - offset else 0)
        = s.clock - s.lastFired i
    rw [if_pos hgt]
    omega
  · intro h0
    show (if offset < s.lastFired i then s.lastFired i - offset else 0) = 0
    rw [h0]
    simp

/-- Witness for `renorm_pure_subtraction` at `offset = 5`, `clock = 10`,
`lastFired 0 = 7`. -/
theorem renorm_pure_subtraction_witness :
    ((5 : ℕ) ≤ renormDemoState.clock) ∧
    ((5 < renormDemoState.lastFired 0 →
      (renormState 5 renormDemoState).clock -
          (renormState 5 renormDemoState).lastFired 0
        = renormDemoState.clock - renormDemoState.lastFired 0) ∧
    (renormDemoState.lastFired 0 = 0 →
      (renormState 5 renormDemoState).lastFired 0 = 0) ∧
    renormDemoState.clock ≤
      (kernelRun demoKParams renormDemoState []).clock) :=
  ⟨by decide, renorm_pure_subtraction renormDemoState 5 0 demoKParams []
    (by decide)⟩

lemma decode_encode (l : List SynW) :
    decodeSyns l.length (encodeSyns l) = some l := by
  induction l with
  | nil => rfl
  | cons s t ih =>
    show decodeSyns (t.length + 1)
      (s.src :: s.dst :: s.w :: s.pad :: encodeSyns t) = some (s :: t)
    rw [decodeSyns, ih]
    rfl

/-- C3: `Brain::save` followed by `Brain::load` into a freshly constructed
brain of identical shape reproduces the synapse array bit-exactly (the whole
persisted state, shape header included, is recovered). -/
theorem save_load_roundtrip (b fresh : BrainP)
    (hlen : b.hostSynapses.length = b.nSyn)
    (hs1 : fresh.nSyn = b.nSyn) (hs2 : fresh.nNrn = b.nNrn) :
    BrainP.load fresh (BrainP.save b) = some b := by
  have hdec : decodeSyns b.nSyn (encodeSyns b.hostSynapses)
      = some b.hostSynapses := by
    rw [← hlen]
    exact decode_encode b.hostSynapses
  unfold BrainP.save BrainP.load
  show Option.map (fun syns => BrainP.mk b.nSyn b.nNrn syns)
      (decodeSyns b.nSyn (encodeSyns b.hostSynapses)) = some b
  rw [hdec]
  rfl

/-- Witness for `save_load_roundtrip` on a 2-synapse brain. -/
theorem save_load_roundtrip_witness :
    ((BrainP.mk 2 8 [SynW.mk 0 1 5 0, SynW.mk 1 2 6 0]).hostSynapses.length
      = (BrainP.mk 2 8 [SynW.mk 0 1 5 0, SynW.mk 1 2 6 0]).nSyn) ∧
    ((BrainP.mk 2 8 [SynW.mk 0 0 0 0, SynW.mk 0 0 0 0]).nSyn
      = (BrainP.mk 2 8 [SynW.mk 0 1 5 0, SynW.mk 1 2 6 0]).nSyn) ∧
    ((BrainP.mk 2 8 [SynW.mk 0 0 0 0, SynW.mk 0 0 0 0]).nNrn
      = (BrainP.mk 2 8 [SynW.mk 0 1 5 0, SynW.mk 1 2 6 0]).nNrn) ∧
    BrainP.load (BrainP.mk 2 8 [SynW.mk 0 0 0 0, SynW.mk 0 0 0 0])
        (BrainP.save (BrainP.mk 2 8 [SynW.mk 0 1 5 0, SynW.mk 1 2 6 0]))
      = some (BrainP.mk 2 8 [SynW.mk 0 1 5 0, SynW.mk 1 2 6 0]) :=
  ⟨rfl, rfl, rfl,
    save_load_roundtrip _ _ rfl rfl rfl⟩

/-- C4 counterexample: the claim says a model file whose header `nSyn`
disagrees with the constructed brain is rejected by `load`. Loading a file
with header `nSyn = 2` into a brain with `nSyn = 8` instead succeeds and
adopts the shape and contents of the file wholesale. -/
theorem load_accepts_shape_mismatch :
    BrainP.load (BrainP.mk 8 8 (List.replicate 8 (SynW.mk 0 0 0 0)))
        (BrainP.save (BrainP.mk 2 3 [SynW.mk 0 1 5 0, SynW.mk 1 2 6 0]))
      = some (BrainP.mk 2 3 [SynW.mk 0 1 5 0, SynW.mk 1 2 6 0]) ∧
    (2 : ℕ) ≠ 8 := by
  exact ⟨rfl, by decide⟩

/-- C4 (amended): `Brain::load` performs no shape validation at all — it
unconditionally adopts the header `nSyn`/`nNeuron` of the file, resizes the
synapse array and reads the synapses of the file, regardless of the brain it is
called on; `BrainEngine::load_model` reports failure (and the constructor
falls back to a fresh random graph) only when no model file exists or it
cannot be opened. -/
theorem load_adopts_header_shape (old : BrainP) (n m : ℕ) (l : List SynW)
    (hn : l.length = n) :
    BrainP.load old (n :: m :: encodeSyns l) = some (BrainP.mk n m l) := by
  unfold BrainP.load
  subst hn
  show Option.map (fun syns => BrainP.mk l.length m syns)
      (decodeSyns l.length (encodeSyns l))
    = some (BrainP.mk l.length m l)
  rw [decode_encode]
  rfl

/-- Witness for `load_adopts_header_shape`: an 8-synapse brain adopts a
2-synapse file. -/
theorem load_adopts_header_shape_witness :
    (([SynW.mk 0 1 5 0, SynW.mk 1 2 6 0] : List SynW).length = 2) ∧
    BrainP.load (BrainP.mk 8 8 (List.replicate 8 (SynW.mk 0 0 0 0)))
        (2 :: 3 :: encodeSyns [SynW.mk 0 1 5 0, SynW.mk 1 2 6 0])
      = some (BrainP.mk 2 3 [SynW.mk 0 1 5 0, SynW.mk 1 2 6 0]) :=
  ⟨rfl, load_adopts_header_shape _ 2 3 _ rfl⟩

lemma iirStep_sub (tau dt raw r : ℚ) :
    iirStep tau dt raw r - raw = (1 - iirAlpha tau dt) * (r - raw) := by
  unfold iirStep
  ring

lemma iirIter_sub (tau dt raw r0 : ℚ) (n : ℕ) :
    iirIter tau dt raw r0 n - raw = (1 - iirAlpha tau dt)^n * (r0 - raw) := by
  induction n with
  | zero => simp [iirIter]
  | succ n ih =>
    rw [iirIter, iirStep_sub, ih, pow_succ]
    ring

lemma iirAlpha_mem (tau dt : ℚ) (ht : 0 < tau) (hd : 0 < dt) :
    0 < iirAlpha tau dt ∧ iirAlpha tau dt < 1 := by
  unfold iirAlpha
  constructor
  · exact div_pos hd (by linarith)
  · rw [div_lt_one (by linarith)]
    linarith

/-- C8: with the raw input held constant and fixed positive `dt` and `tau`,
the `RateFilter` IIR state converges monotonically to `raw`: the distance
`|r - raw|` never increases at a step, and for every positive tolerance it
eventually stays below it (the update contracts the distance by the factor
`1 - alpha` with `0 < alpha < 1`). -/
theorem rateFilter_iir_contraction (tau dt raw r0 : ℚ)
    (ht : 0 < tau) (hd : 0 < dt) :
    (∀ n, |iirIter tau dt raw r0 (n+1) - raw|
        ≤ |iirIter tau dt raw r0 n - raw|) ∧
    (∀ ε : ℚ, 0 < ε → ∃ N, ∀ n, N ≤ n →
        |iirIter tau dt raw r0 n - raw| < ε) := by
  obtain ⟨ha0, ha1⟩ := iirAlpha_mem tau dt ht hd
  have hc0 : 0 ≤ 1 - iirAlpha tau dt := by linarith
  have hc1 : 1 - iirAlpha tau dt < 1 := by linarith
  have habs : ∀ n, |iirIter tau dt raw r0 n - raw|
      = (1 - iirAlpha tau dt)^n * |r0 - raw| := by
    intro n
    rw [iirIter_sub, abs_mul, abs_pow, abs_of_nonneg hc0]
  constructor
  · intro n
    rw [habs, habs, pow_succ]
    have h1 : (1 - iirAlpha tau dt)^n * (1 - iirAlpha tau dt) * |r0 - raw|
        = (1 - iirAlpha tau dt) * ((1 - iirAlpha tau dt)^n * |r0 - raw|) := by
      ring
    rw [h1]
    have h2 : 0 ≤ (1 - iirAlpha tau dt)^n * |r0 - raw| := by positivity
    nlinarith
  · intro ε hε
    have hden : (0:ℚ) < |r0 - raw| + 1 := by positivity
    obtain ⟨N, hN⟩ := exists_pow_lt_of_lt_one (div_pos hε hden) hc1
    refine ⟨N, fun n hn => ?_⟩
    rw [habs]
    have hpow : (1 - iirAlpha tau dt)^n ≤ (1 - iirAlpha tau dt)^N :=
      pow_le_pow_of_le_one hc0 (le_of_lt hc1) hn
    have hNn : (0:ℚ) ≤ (1 - iirAlpha tau dt)^N := pow_nonneg hc0 _
    have habs0 : (0:ℚ) ≤ |r0 - raw| := abs_nonneg _
    calc (1 - iirAlpha tau dt)^n * |r0 - raw|
        ≤ (1 - iirAlpha tau dt)^N * (|r0 - raw| + 1) := by nlinarith
      _ < (ε / (|r0 - raw| + 1)) * (|r0 - raw| + 1) := by
          exact mul_lt_mul_of_pos_right hN hden
      _ = ε := div_mul_cancel₀ ε (ne_of_gt hden)

/-- Witness for `rateFilter_iir_contraction` at the configured constants
`tau = FILTER_TAU = 0.02`, `dt = dT_SEC = 0.0009`. -/
theorem rateFilter_iir_contraction_witness :
    ((0:ℚ) < 1/50) ∧ ((0:ℚ) < 9/10000) ∧
    ((∀ n, |iirIter (1/50) (9/10000) 1 0 (n+1) - 1|
        ≤ |iirIter (1/50) (9/10000) 1 0 n - 1|) ∧
    (∀ ε : ℚ, 0 < ε → ∃ N, ∀ n, N ≤ n →
        |iirIter (1/50) (9/10000) 1 0 n - 1| < ε)) :=
  ⟨by norm_num, by norm_num,
    rateFilter_iir_contraction (1/50) (9/10000) 1 0 (by norm_num) (by norm_num)⟩

lemma blockTarget_bounds (block inBlock : ℕ) :
    0 ≤ blockTarget block inBlock ∧ blockTarget block inBlock ≤ 1 := by
  rcases block with _|_|_|_|_|b
  · exact ⟨(by norm_num : (0:ℚ) ≤ 1), le_refl 1⟩
  · exact ⟨le_refl 0, (by norm_num : (0:ℚ) ≤ 1)⟩
  · exact ⟨(by norm_num : (0:ℚ) ≤ 1), le_refl 1⟩
  · exact ⟨le_refl 0, (by norm_num : (0:ℚ) ≤ 1)⟩
  · exact ⟨(by norm_num : (0:ℚ) ≤ 1/2), (by norm_num : (1/2:ℚ) ≤ 1)⟩
  · show 0 ≤ (if inBlock % 5000 < 1000 then (1/2 : ℚ) else 0) ∧
      (if inBlock % 5000 < 1000 then (1/2 : ℚ) else 0) ≤ 1
    split_ifs <;> constructor <;> norm_num

/-- Per pass, `teacherRate` becomes either `min(teacherRate, target)` (the
usual case) or, at a diagnostic-window decay, `max(that * 0.95, 0.05)`. -/
lemma engStep_teacherRate_cases (d : DbgOut) (s : EngState) :
    (engStep d s).teacherRate
      = min s.teacherRate (blockTarget s.block s.inBlock) ∨
    (engStep d s).teacherRate
      = max (min s.teacherRate (blockTarget s.block s.inBlock) * (19/20))
          (1/20) := by
  unfold engStep
  dsimp only
  split_ifs <;> first
    | (left; rfl)
    | (right; rfl)

lemma engStep_teacherRate_bounds (d : DbgOut) (s : EngState)
    (h0 : 0 ≤ s.teacherRate) (h1 : s.teacherRate ≤ 1) :
    0 ≤ (engStep d s).teacherRate ∧ (engStep d s).teacherRate ≤ 1 := by
  obtain ⟨ht0, ht1⟩ := blockTarget_bounds s.block s.inBlock
  have htr1a : 0 ≤ min s.teacherRate (blockTarget s.block s.inBlock) :=
    le_min h0 ht0
  have htr1b : min s.teacherRate (blockTarget s.block s.inBlock) ≤ 1 :=
    le_trans (min_le_left _ _) h1
  rcases engStep_teacherRate_cases d s with h | h <;> rw [h]
  · exact ⟨htr1a, htr1b⟩
  · constructor
    · exact le_trans (by norm_num) (le_max_right _ _)
    · apply max_le
      · nlinarith
      · norm_num

lemma engStep_no_window_teacherRate (d : DbgOut) (s : EngState)
    (h : ¬ (s.winCtr + 1 = 1000)) :
    (engStep d s).teacherRate
      = min s.teacherRate (blockTarget s.block s.inBlock) := by
  unfold engStep
  dsimp only
  rw [if_neg h]

/-- C5 (amended): over every sequence of passes, `teacherRate` starts at 1.0
and always stays within `[0, 1]`; on any pass that does not close a 1000-pass
diagnostic window the update is `min(teacherRate, target)` and never
increases it. (It is not bounded below by 0.05, and the window decay can
raise it back to 0.05 — see the counterexample.) -/
theorem teacherRate_run_bounds (inputs : ℕ → DbgOut) (n : ℕ) :
    (engRun inputs 0).teacherRate = 1 ∧
    (0 ≤ (engRun inputs n).teacherRate ∧ (engRun inputs n).teacherRate ≤ 1) ∧
    ((engRun inputs n).winCtr + 1 ≠ 1000 →
      (engRun inputs (n+1)).teacherRate ≤ (engRun inputs n).teacherRate) := by
  refine ⟨rfl, ?_, ?_⟩
  · induction n with
    | zero => constructor <;> norm_num [engRun, engInit]
    | succ n ih =>
      rw [engRun]
      exact engStep_teacherRate_bounds _ _ ih.1 ih.2
  · intro hw
    rw [engRun, engStep_no_window_teacherRate _ _ hw]
    exact min_le_left _ _

/-- Witness for `teacherRate_run_bounds` with all-zero device counters. -/
theorem teacherRate_run_bounds_witness :
    ((engRun (fun _ => DbgOut.mk 0 0 0) 0).winCtr + 1 ≠ 1000) ∧
    ((engRun (fun _ => DbgOut.mk 0 0 0) 0).teacherRate = 1 ∧
      (0 ≤ (engRun (fun _ => DbgOut.mk 0 0 0) 0).teacherRate ∧
        (engRun (fun _ => DbgOut.mk 0 0 0) 0).teacherRate ≤ 1) ∧
      ((engRun (fun _ => DbgOut.mk 0 0 0) 0).winCtr + 1 ≠ 1000 →
        (engRun (fun _ => DbgOut.mk 0 0 0) 1).teacherRate
          ≤ (engRun (fun _ => DbgOut.mk 0 0 0) 0).teacherRate)) :=
  ⟨by decide, teacherRate_run_bounds (fun _ => DbgOut.mk 0 0 0) 0⟩

lemma c5_phaseA (k : ℕ) (hk : k ≤ 999) :
    engRun c5Inputs k = EngState.mk 1 0 k 0 1 k 0 (k : ℚ) 0 0 := by
  induction k with
  | zero => rfl
  | succ k ih =>
    have hne : ¬ (k + 1 = 1000) := by omega
    have hin : c5Inputs k = DbgOut.mk 0 1000000 0 := by
      unfold c5Inputs
      rw [if_pos (by omega : k < 1000)]
    rw [engRun, ih (by omega), hin]
    unfold engStep blockTarget blockLen
    dsimp only
    norm_num [hne, EngState.mk.injEq]

lemma c5_state1000 :
    engRun c5Inputs 1000 = EngState.mk 1 1 0 0 1 0 0 1000 0 0 := by
  have hin : c5Inputs 999 = DbgOut.mk 0 1000000 0 := by
    unfold c5Inputs
    rw [if_pos (by omega : (999:ℕ) < 1000)]
  rw [show (1000:ℕ) = 999 + 1 from rfl, engRun, c5_phaseA 999 (by omega), hin]
  unfold engStep blockTarget blockLen
  dsimp only
  norm_num [EngState.mk.injEq]

lemma c5_phaseB (k : ℕ) (hk1 : 1 ≤ k) (hk : k ≤ 999) :
    engRun c5Inputs (1000 + k) = EngState.mk 0 1 k k 1 k 0 1000 0 (k : ℚ) := by
  induction k with
  | zero => exact absurd hk1 (by omega)
  | succ k ih =>
    have hin : c5Inputs (1000 + k) = DbgOut.mk 0 0 1000000 := by
      unfold c5Inputs
      rw [if_neg (by omega : ¬ (1000 + k < 1000))]
    have hstep : engRun c5Inputs (1000 + (k + 1))
        = engStep (c5Inputs (1000 + k)) (engRun c5Inputs (1000 + k)) := by
      rw [show 1000 + (k + 1) = (1000 + k) + 1 by omega, engRun]
    rcases Nat.eq_zero_or_pos k with hk0 | hkpos
    · subst hk0
      rw [hstep, c5_state1000, hin]
      unfold engStep blockTarget blockLen
      dsimp only
      norm_num [EngState.mk.injEq]
    · have hk2 : k ≤ 999 := by omega
      have hne : ¬ (k + 1 = 1000) := by omega
      rw [hstep, ih hkpos hk2, hin]
      unfold engStep blockTarget blockLen
      dsimp only
      norm_num [hne, EngState.mk.injEq]
      omega

lemma c5_state2000 :
    engRun c5Inputs 2000 = EngState.mk (1/20) 2 0 1000 1 0 0 0 0 0 := by
  have hin : c5Inputs 1999 = DbgOut.mk 0 0 1000000 := by
    unfold c5Inputs
    rw [if_neg (by omega : ¬ ((1999:ℕ) < 1000))]
  have h1999 : engRun c5Inputs 1999 = EngState.mk 0 1 999 999 1 999 0 1000 0 999 := by
    rw [show (1999:ℕ) = 1000 + 999 from rfl, c5_phaseB 999 (by omega) (by omega)]
    norm_num
  rw [show (2000:ℕ) = 1999 + 1 from rfl, engRun, h1999, hin]
  unfold engStep blockTarget blockLen
  dsimp only
  norm_num [EngState.mk.injEq]

/-- C5 counterexample: driving the engine with device counters that report
positive teacher-mode weight deltas for the first 1000 passes and positive
reward-mode deltas afterwards, `teacherRate` is `0` after pass 1001 (the
first zero-target block pulls it below the claimed `0.05` floor via
`min(teacherRate, target)`), stays `0` through pass 1999, and then the
diagnostic-window decay `max(teacherRate * 0.95, 0.05)` RAISES it to `0.05`
at pass 2000 — so `teacherRate` is neither bounded below by `0.05` nor
non-increasing from one pass to the next. -/
theorem teacherRate_floor_violated_then_rises :
    (engRun c5Inputs 1001).teacherRate = 0 ∧
    (engRun c5Inputs 1001).teacherRate < 1/20 ∧
    (engRun c5Inputs 1999).teacherRate = 0 ∧
    (engRun c5Inputs 2000).teacherRate = 1/20 ∧
    (engRun c5Inputs 1999).teacherRate < (engRun c5Inputs 2000).teacherRate := by
  have h1001 : engRun c5Inputs 1001 = EngState.mk 0 1 1 1 1 1 0 1000 0 1 := by
    rw [show (1001:ℕ) = 1000 + 1 from rfl, c5_phaseB 1 (le_refl 1) (by omega)]
    norm_num
  have h1999 : engRun c5Inputs 1999 = EngState.mk 0 1 999 999 1 999 0 1000 0 999 := by
    rw [show (1999:ℕ) = 1000 + 999 from rfl, c5_phaseB 999 (by omega) (by omega)]
    norm_num
  rw [h1001, h1999, c5_state2000]
  norm_num
